import Mathlib

/-!
# Verification of the iw4x launcher's update engine (`src/game.rs`, `src/cache.rs`)

A shallow embedding of the manifest-driven file synchronization engine:
the data model (`game_files.rs`), the Differ (`verify_file_needs_download`,
`verify_files`), the hash cache (`cache.rs`), the download retry loop
(`download_file_to_disk`), the archive extractor (`extract_archive`) and the
orchestrator (`download_files`).

Modelling conventions:
* Rust `String` hashes are Lean `String`s; `str::to_lowercase` is modelled
  charwise by `lowerStr` (it agrees with Rust on ASCII, which is the domain
  here: lowercase/uppercase hex digests).
* `HashMap<String, String>` (the hash cache) is an association list with
  first-match lookup and replace-on-insert, `Cache`.
* The install directory at diff time is a snapshot `Disk`: an association
  list mapping an existing path to the outcome of `get_blake3` on it
  (`some h` = computed hash `h`, `none` = I/O error while hashing).
  A path absent from the list does not exist on disk.
* A Rust panic (the `unwrap` in `verify_file_needs_download`) is modelled by
  an `Option` result: `none` = panic.
* Fallible Rust functions returning `Result<_, Box<dyn Error>>` become
  `Except String _`.
* The dynamic behaviour of the download/extraction phase (network outcomes,
  the state of the disk after writes) is modelled by oracles (`Oracles`),
  and the side effects of the phase are recorded as a trace of events
  (`Ev`): download attempts, hash verification outcomes, member
  extraction/skipping, and file deletion.
-/

namespace Launcher

/-- Model of Rust `char::to_lowercase` restricted to its ASCII behaviour:
`'A'..'Z'` is shifted down by 32, everything else is kept. -/
def lowerChar (c : Char) : Char :=
  if 65 ≤ c.toNat ∧ c.toNat ≤ 90 then Char.ofNat (c.toNat + 32) else c

/-- Model of Rust `str::to_lowercase`, applied charwise. -/
def lowerStr (s : String) : String :=
  ⟨s.data.map lowerChar⟩

/-- The hash cache: Rust `HashMap<String, String>` as an association list. -/
abbrev Cache := List (String × String)

/-- First-match lookup, modelling `HashMap::get`. -/
def cacheGet (m : Cache) (k : String) : Option String :=
  match m with
  | [] => none
  | (k0, v0) :: rest => if k0 = k then some v0 else cacheGet rest k

/-- Replace-or-prepend insertion, modelling `HashMap::insert`. -/
def cacheInsert (m : Cache) (k v : String) : Cache :=
  match m with
  | [] => [(k, v)]
  | (k0, v0) :: rest =>
    if k0 = k then (k0, v) :: rest else (k0, v0) :: cacheInsert rest k v

/-- Snapshot of the install directory at diff time: existing paths mapped to
the outcome of `get_blake3` (`none` = I/O error while hashing). -/
abbrev Disk := List (String × Option String)

/-- Model of `Path::exists` for the diff-time snapshot. -/
def diskExists (d : Disk) (p : String) : Bool :=
  match d with
  | [] => false
  | (p0, _) :: rest => if p0 = p then true else diskExists rest p

/-- Model of `get_blake3` for the diff-time snapshot: `none` on I/O error
(or on a non-existing path, on which the code never calls it). -/
def diskBlake3 (d : Disk) (p : String) : Option String :=
  match d with
  | [] => none
  | (p0, h) :: rest => if p0 = p then h else diskBlake3 rest p

/-- `UpdateFileData` from `game_files.rs`: manifest hash, size, relative path. -/
structure UpdateFileData where
  blake3 : String
  size : Nat
  path : String
deriving Repr, DecidableEq

/-- `UpdateFile` from `game_files.rs`: a standalone downloadable file. -/
structure UpdateFile where
  file_data : UpdateFileData
  url : String
deriving Repr, DecidableEq

/-- `UpdateArchive` from `game_files.rs`: a fetchable archive with its
declared member files. -/
structure UpdateArchive where
  file_data : UpdateFileData
  url : String
  files : List UpdateFileData
deriving Repr, DecidableEq

/-- `UpdateData` from `game_files.rs`: the manifest. -/
structure UpdateData where
  archives : List UpdateArchive
  files : List UpdateFile
deriving Repr, DecidableEq

/-- `get_total_verify_count` (`game.rs:12`): count of standalone files plus
count of declared members across all archives. -/
def get_total_verify_count (update_data : UpdateData) : Nat :=
  update_data.files.length +
    (update_data.archives.map (fun archive => archive.files.length)).sum

/-- `verify_file_needs_download` (`game.rs:23`). Returns
`some (needs_download, hashes')` on normal return, `none` when the Rust code
panics (the `.unwrap()` on `get_blake3` at `game.rs:37`).
The `dir.join` is folded into the path: `Disk` is keyed by relative path. -/
def verify_file_needs_download (file_data : UpdateFileData) (dir : Disk)
    (hashes : Cache) : Option (Bool × Cache) :=
  if ¬ diskExists dir file_data.path then
    some (true, hashes)
  else
    let hash_remote := lowerStr file_data.blake3
    let hash_local_raw : Option String :=
      match cacheGet hashes file_data.path with
      | some h => some h
      | none => diskBlake3 dir file_data.path
    match hash_local_raw with
    | none => none
    | some hl =>
      let hash_local := lowerStr hl
      if hash_local ≠ hash_remote then
        some (true, hashes)
      else
        some (false, cacheInsert hashes file_data.path (lowerStr file_data.blake3))

/-- The standalone-file loop of `verify_files` (`game.rs:70-76`): collects
files needing download, threading the cache, and counting the progress-bar
increments (one per file). -/
def verifyFilesLoop (files : List UpdateFile) (dir : Disk) (hashes : Cache) :
    Option (List UpdateFile × Cache × Nat) :=
  match files with
  | [] => some ([], hashes, 0)
  | f :: rest =>
    match verify_file_needs_download f.file_data dir hashes with
    | none => none
    | some (need, hashes') =>
      match verifyFilesLoop rest dir hashes' with
      | none => none
      | some (sel, hashes'', n) =>
        some ((if need then f :: sel else sel), hashes'', n + 1)

/-- The member scan of one archive (`game.rs:79-86`): Rust
`archive.files.iter().any(...)`, which short-circuits on the first stale
member. Returns `(any_stale, cache, verified_file_count)`;
`verified_file_count` progress-bar increments were issued during the scan. -/
def archiveScan (members : List UpdateFileData) (dir : Disk) (hashes : Cache) :
    Option (Bool × Cache × Nat) :=
  match members with
  | [] => some (false, hashes, 0)
  | m :: rest =>
    match verify_file_needs_download m dir hashes with
    | none => none
    | some (need, hashes') =>
      if need then some (true, hashes', 1)
      else
        match archiveScan rest dir hashes' with
        | none => none
        | some (b, hashes'', n) => some (b, hashes'', n + 1)

/-- The archive loop of `verify_files` (`game.rs:78-97`): scans each archive,
adds the (buggy) short-circuit compensation to the progress count —
`game.rs:90` compares `verified_file_count` against `update_data.files.len()`
(the number of standalone files), not against the archive's member count —
and collects archives with a stale member. -/
def verifyArchivesLoop (update_data : UpdateData) (archives : List UpdateArchive)
    (dir : Disk) (hashes : Cache) :
    Option (List UpdateArchive × Cache × Nat) :=
  match archives with
  | [] => some ([], hashes, 0)
  | archive :: rest =>
    match archiveScan archive.files dir hashes with
    | none => none
    | some (any_stale, hashes', cnt) =>
      let incs := cnt +
        (if cnt < update_data.files.length then update_data.files.length - cnt else 0)
      match verifyArchivesLoop update_data rest dir hashes' with
      | none => none
      | some (sel, hashes'', n) =>
        some ((if any_stale then archive :: sel else sel), hashes'', incs + n)

/-- `verify_files` (`game.rs:53`): returns
`(archives_to_download, files_to_download, final cache, progress increments)`;
`none` when a hash `unwrap` panicked. -/
def verify_files (update_data : UpdateData) (dir : Disk) (hashes : Cache) :
    Option (List UpdateArchive × List UpdateFile × Cache × Nat) :=
  match verifyFilesLoop update_data.files dir hashes with
  | none => none
  | some (sel_files, hashes1, n1) =>
    match verifyArchivesLoop update_data update_data.archives dir hashes1 with
    | none => none
    | some (sel_archives, hashes2, n2) =>
      some (sel_archives, sel_files, hashes2, n1 + n2)

/-- Model of Rust `str::trim`: drop leading and trailing whitespace. -/
def trimStr (s : String) : String :=
  ⟨((s.data.dropWhile Char.isWhitespace).reverse.dropWhile
      Char.isWhitespace).reverse⟩

/-- `get_cache` (`cache.rs:3`). `read` is the outcome of
`fs::read_to_string(cache.json)` (`none` = any I/O error, including a missing
file; `unwrap_or_default` turns it into `""`); `parse` models
`serde_json::from_str::<HashMap<String, String>>` (`none` = parse error,
`unwrap_or_default` turns it into the empty map). -/
def get_cache (read : Option String) (parse : String → Option Cache) : Cache :=
  let cache_content := read.getD ""
  if (trimStr cache_content).isEmpty then [] else (parse cache_content).getD []

/-- Observable side effects of the download/extraction phase of one sync
pass, in the order the code performs them. -/
inductive Ev where
  /-- `http::download_file_progress` was invoked for `path`
  (attempt number `attempt` of the retry loop, 1-based). -/
  | downloadAttempt (path : String) (attempt : Nat)
  /-- Post-download hash verification of `path` succeeded (`game.rs:111`). -/
  | verifyOk (path : String)
  /-- Post-download hash verification of `path` failed (`game.rs:114`). -/
  | verifyFail (path : String)
  /-- Member `member` of archive `archive` was already up to date and
  skipped (`game.rs:268-272`). -/
  | skipMember (archive : String) (member : String)
  /-- Member `member` was extracted from archive `archive`
  (`game.rs:276-290`). -/
  | extractMember (archive : String) (member : String)
  /-- `fs::remove_file` on `path` (`game.rs:401`). -/
  | deleteFile (path : String)
deriving Repr, DecidableEq

/-- Outcome of one `http::download_file_progress` call: a transport error, or
a completed write after which re-hashing the destination gives `hashResult`
(`Except.error` = `get_blake3` I/O failure). -/
inductive AttemptOutcome where
  | netErr
  | wrote (hashResult : Except String String)
deriving Repr

/-- Environment oracles for the download/extraction phase. The disk changes
under the phase's own writes, so its probes (`fs::exists`, `get_blake3`,
`zip.by_name`, directory creation) are modelled as unconstrained oracles
rather than through the diff-time `Disk` snapshot. -/
structure Oracles where
  /-- Outcome of the download attempt number `n` (1-based) for a given
  path. -/
  dl : String → Nat → AttemptOutcome
  /-- Whether `ensure_parent_dir_exists` succeeds for a given target path. -/
  parentDirOk : String → Bool
  /-- `fs::exists` on the archive artifact path (`game.rs:378`). -/
  archivePresent : String → Bool
  /-- `get_blake3` of a present archive artifact (`game.rs:379`). -/
  archiveHash : String → Except String String
  /-- Whether `File::open` + `ZipArchive::new` succeed on the archive
  artifact (`game.rs:259-261`). -/
  zipOpen : String → Bool
  /-- `fs::exists` on a member's target path during extraction
  (`game.rs:265`). -/
  memberOnDisk : String → Bool
  /-- `get_blake3` of a member's target path during extraction. -/
  memberHash : String → Except String String
  /-- Whether `zip.by_name` finds the member in the archive
  (`game.rs:275`). -/
  memberInZip : String → Bool
  /-- Whether `fs::remove_file` of the archive artifact succeeds
  (`game.rs:401`). -/
  removeOk : String → Bool

/-- `verify_downloaded_file` (`game.rs:103`): re-hash the written file
(outcome `hashResult`) and compare case-insensitively against the manifest
hash; a hashing I/O error propagates. -/
def verify_downloaded_file (hashResult : Except String String)
    (expected_hash : String) : Except String Bool :=
  match hashResult with
  | .ok local_hash => .ok (lowerStr local_hash = lowerStr expected_hash)
  | .error e => .error e

/-- `MAX_DOWNLOAD_ATTEMPTS` (`global.rs:23`). -/
def MAX_DOWNLOAD_ATTEMPTS : Nat := 2

/-- The error message built at `game.rs:241-244`. -/
def exhaustedMsg (path : String) : String :=
  "Failed to download " ++ path ++ " after " ++
    toString MAX_DOWNLOAD_ATTEMPTS ++ " attempts"

/-- The retry loop body of `download_file_to_disk` (`game.rs:172-238`),
unrolled on the remaining attempt budget `fuel`
(`= MAX_DOWNLOAD_ATTEMPTS - attempts`). Returns the final cache (on
success) or the propagated/exhaustion error, together with the trace of
events. On a hash mismatch nothing is deleted: the loop just sleeps and
retries, and the next attempt's `File::create` truncates the destination. -/
def downloadGo (file_data : UpdateFileData) (dl : String → Nat → AttemptOutcome)
    (hashes : Cache) (attempts : Nat) :
    (fuel : Nat) → Except String Cache × List Ev
  | 0 => (.error (exhaustedMsg file_data.path), [])
  | fuel + 1 =>
    let attempt := attempts + 1
    match dl file_data.path attempt with
    | .netErr =>
      let (r, evs) := downloadGo file_data dl hashes attempt fuel
      (r, .downloadAttempt file_data.path attempt :: evs)
    | .wrote hashResult =>
      match verify_downloaded_file hashResult file_data.blake3 with
      | .error e => (.error e, [.downloadAttempt file_data.path attempt])
      | .ok true =>
        (.ok (cacheInsert hashes file_data.path (lowerStr file_data.blake3)),
         [.downloadAttempt file_data.path attempt, .verifyOk file_data.path])
      | .ok false =>
        let (r, evs) := downloadGo file_data dl hashes attempt fuel
        (r, .downloadAttempt file_data.path attempt ::
            .verifyFail file_data.path :: evs)

/-- `download_file_to_disk` (`game.rs:160`): the bounded retry loop, started
with `attempts = 0` and the full attempt budget. -/
def download_file_to_disk (file_data : UpdateFileData)
    (dl : String → Nat → AttemptOutcome) (hashes : Cache) :
    Except String Cache × List Ev :=
  downloadGo file_data dl hashes 0 MAX_DOWNLOAD_ATTEMPTS

/-- The member loop of `extract_archive` (`game.rs:263-301`): skip a member
that exists and verifies, otherwise locate it in the zip and extract it; a
member missing from the zip or a verification I/O error is a hard error. -/
def extractLoop (or : Oracles) (aname : String) :
    (members : List UpdateFileData) → Except String Unit × List Ev
  | [] => (.ok (), [])
  | m :: rest =>
    let extractStep : Except String Unit × List Ev :=
      if or.memberInZip m.path then
        if or.parentDirOk m.path then
          let (r, evs) := extractLoop or aname rest
          (r, .extractMember aname m.path :: evs)
        else
          (.error ("Failed to create directory " ++ m.path), [])
      else
        (.error ("Could not find file " ++ m.path ++ " in archive " ++ aname), [])
    if or.memberOnDisk m.path then
      match verify_downloaded_file (or.memberHash m.path) m.blake3 with
      | .error e => (.error e, [])
      | .ok true =>
        let (r, evs) := extractLoop or aname rest
        (r, .skipMember aname m.path :: evs)
      | .ok false => extractStep
    else extractStep

/-- `extract_archive` (`game.rs:252`): open the downloaded archive, then run
the member loop. -/
def extract_archive (or : Oracles) (archive : UpdateArchive) :
    Except String Unit × List Ev :=
  if or.zipOpen archive.file_data.path then
    extractLoop or archive.file_data.path archive.files
  else
    (.error ("Failed to open archive " ++ archive.file_data.path), [])

/-- The standalone-file download loop of `download_files` (`game.rs:342-364`):
each file's parent directory is created, then `download_file_to_disk` runs;
its error (`?` at `game.rs:363`) aborts the loop. -/
def downloadFilesLoop (or : Oracles) :
    (files : List UpdateFile) → Cache → Except String Cache × List Ev
  | [], hashes => (.ok hashes, [])
  | f :: rest, hashes =>
    if or.parentDirOk f.file_data.path then
      match download_file_to_disk f.file_data or.dl hashes with
      | (.error e, evs) => (.error e, evs)
      | (.ok hashes', evs) =>
        let (r, evs') := downloadFilesLoop or rest hashes'
        (r, evs ++ evs')
    else
      (.error ("Failed to create directory " ++ f.file_data.path), [])

/-- The archive loop of `download_files` (`game.rs:366-403`): per archive,
download the artifact unless it is already present and verifies, extract it,
and remove the artifact. Every error aborts via `?`. -/
def downloadArchivesLoop (or : Oracles) :
    (archives : List UpdateArchive) → Cache → Except String Cache × List Ev
  | [], hashes => (.ok hashes, [])
  | archive :: rest, hashes =>
    if or.parentDirOk archive.file_data.path then
      let needsDl : Except String Bool :=
        if or.archivePresent archive.file_data.path then
          match verify_downloaded_file (or.archiveHash archive.file_data.path)
              archive.file_data.blake3 with
          | .error e => .error e
          | .ok verified => .ok (!verified)
        else .ok true
      match needsDl with
      | .error e => (.error e, [])
      | .ok true =>
        match download_file_to_disk archive.file_data or.dl hashes with
        | (.error e, evs) => (.error e, evs)
        | (.ok hashes', evs) =>
          match extract_archive or archive with
          | (.error e, xevs) => (.error e, evs ++ xevs)
          | (.ok (), xevs) =>
            if or.removeOk archive.file_data.path then
              let (r, evs') := downloadArchivesLoop or rest hashes'
              (r, evs ++ xevs ++ [.deleteFile archive.file_data.path] ++ evs')
            else
              (.error ("Failed to remove " ++ archive.file_data.path),
               evs ++ xevs)
      | .ok false =>
        match extract_archive or archive with
        | (.error e, xevs) => (.error e, xevs)
        | (.ok (), xevs) =>
          if or.removeOk archive.file_data.path then
            let (r, evs') := downloadArchivesLoop or rest hashes
            (r, xevs ++ [.deleteFile archive.file_data.path] ++ evs')
          else
            (.error ("Failed to remove " ++ archive.file_data.path), xevs)
    else
      (.error ("Failed to create directory " ++ archive.file_data.path), [])

/-- `download_files` (`game.rs:307`): diff, fast-path when nothing is stale,
then the standalone-file loop followed by the archive loop. `none` = panic
during diffing. -/
def download_files (update_data : UpdateData) (dir : Disk) (or : Oracles)
    (hashes : Cache) : Option (Except String Cache × List Ev) :=
  match verify_files update_data dir hashes with
  | none => none
  | some (archives_to_download, files_to_download, hashes1, _) =>
    if archives_to_download.isEmpty && files_to_download.isEmpty then
      some (.ok hashes1, [])
    else
      match downloadFilesLoop or files_to_download hashes1 with
      | (.error e, evs) => some (.error e, evs)
      | (.ok hashes2, evs) =>
        let (r, evs') := downloadArchivesLoop or archives_to_download hashes2
        some (r, evs ++ evs')

/-! ## Spec-side definitions used by theorem statements -/

/-- The spec's "locally known hash" of a file: the hash-cache entry on a
hit, otherwise the freshly computed content hash (`none` = hashing failed). -/
def local_known_hash (file_data : UpdateFileData) (dir : Disk)
    (hashes : Cache) : Option String :=
  match cacheGet hashes file_data.path with
  | some h => some h
  | none => diskBlake3 dir file_data.path

/-- Whether an event is a file deletion. -/
def isDeleteEv : Ev → Bool
  | .deleteFile _ => true
  | _ => false

/-- Normal form of `verify_file_needs_download`, phrased through
`local_known_hash`. Shared by several proofs below. -/
theorem verify_file_needs_download_eq (file_data : UpdateFileData)
    (dir : Disk) (hashes : Cache) :
    verify_file_needs_download file_data dir hashes =
      if diskExists dir file_data.path then
        match local_known_hash file_data dir hashes with
        | none => none
        | some hl =>
          if lowerStr hl = lowerStr file_data.blake3 then
            some (false,
              cacheInsert hashes file_data.path (lowerStr file_data.blake3))
          else
            some (true, hashes)
      else
        some (true, hashes) := by
  unfold verify_file_needs_download local_known_hash
  by_cases hex : diskExists dir file_data.path
  · rw [if_neg (by simp [hex]), if_pos hex]
    cases cacheGet hashes file_data.path with
    | none =>
      cases diskBlake3 dir file_data.path with
      | none => rfl
      | some hl =>
        by_cases hne : lowerStr hl = lowerStr file_data.blake3 <;> simp [hne]
    | some hl =>
      by_cases hne : lowerStr hl = lowerStr file_data.blake3 <;> simp [hne]
  · simp [hex]

/-! ## C1 — staleness rule for a standalone manifest entry -/

/-- C1: a manifest file entry is classified stale (needing download) iff the
target path does not exist, or its locally known hash (cache hit, else
freshly computed) differs from the manifest hash after lower-casing both. -/
theorem stale_iff_missing_or_hash_differs (file_data : UpdateFileData)
    (dir : Disk) (hashes : Cache) (b : Bool) (hashes' : Cache)
    (h : verify_file_needs_download file_data dir hashes = some (b, hashes')) :
    b = true ↔
      (diskExists dir file_data.path = false ∨
        ∃ hl, local_known_hash file_data dir hashes = some hl ∧
          lowerStr hl ≠ lowerStr file_data.blake3) := by
  rw [verify_file_needs_download_eq] at h
  by_cases hex : diskExists dir file_data.path
  · rw [if_pos hex] at h
    cases hlk : local_known_hash file_data dir hashes with
    | none => rw [hlk] at h; cases h
    | some hl =>
      rw [hlk] at h
      dsimp only at h
      by_cases heq : lowerStr hl = lowerStr file_data.blake3
      · rw [if_pos heq] at h
        obtain ⟨hb, -⟩ : false = b ∧ _ := by simpa using h
        subst hb
        simp [hex, heq]
      · rw [if_neg heq] at h
        obtain ⟨hb, -⟩ : true = b ∧ _ := by simpa using h
        subst hb
        simp only [hex, Bool.true_eq_false, false_or, true_iff]
        exact ⟨hl, rfl, heq⟩
  · rw [if_neg hex] at h
    obtain ⟨hb, -⟩ : true = b ∧ _ := by simpa using h
    subst hb
    simp only [true_iff]
    exact Or.inl (by simpa using hex)

/-- Witness for C1 at a concrete input: path `"p"` exists with computed hash
`"BB"`, empty cache, manifest hash `"aa"`; the entry is stale. -/
theorem stale_iff_missing_or_hash_differs_witness :
    (true : Bool) = true ↔
      (diskExists [("p", some "BB")] (UpdateFileData.mk "aa" 1 "p").path = false ∨
        ∃ hl, local_known_hash (UpdateFileData.mk "aa" 1 "p") [("p", some "BB")] [] =
            some hl ∧ lowerStr hl ≠ lowerStr (UpdateFileData.mk "aa" 1 "p").blake3) :=
  stale_iff_missing_or_hash_differs (UpdateFileData.mk "aa" 1 "p")
    [("p", some "BB")] [] true [] (by rfl)

/-! ## C3 — when the hash cache is updated by the Differ -/

/-- C3 counterexample: path `"p"` exists with freshly computed hash `"bb"`
(cache miss), manifest hash `"aa"`. The computed hash mismatches, the file
is classified stale, and the returned cache is still empty — the hash cache
is NOT updated on a fresh computation whose result mismatches, contradicting
the claim that it is updated regardless of match/mismatch
(`game.rs:44` runs only in the match branch). -/
theorem fresh_hash_mismatch_leaves_cache_cex :
    verify_file_needs_download (UpdateFileData.mk "aa" 1 "p")
        [("p", some "bb")] [] = some (true, []) ∧
      cacheGet [] "p" = none := by
  constructor <;> rfl

/-- Shape of the cache returned by one Differ check: unchanged when the
file is classified stale, extended with the lower-cased manifest hash when
it is up to date. -/
theorem verify_cache_update_shape (file_data : UpdateFileData) (dir : Disk)
    (hashes : Cache) (b : Bool) (hashes' : Cache)
    (h : verify_file_needs_download file_data dir hashes = some (b, hashes')) :
    hashes' =
      if b then hashes
      else cacheInsert hashes file_data.path (lowerStr file_data.blake3) := by
  rw [verify_file_needs_download_eq] at h
  by_cases hex : diskExists dir file_data.path
  · rw [if_pos hex] at h
    cases hlk : local_known_hash file_data dir hashes with
    | none => rw [hlk] at h; cases h
    | some hl =>
      rw [hlk] at h
      dsimp only at h
      by_cases heq : lowerStr hl = lowerStr file_data.blake3
      · rw [if_pos heq] at h
        obtain ⟨hb, hh⟩ : false = b ∧ _ := by simpa using h
        subst hb
        simpa using hh.symm
      · rw [if_neg heq] at h
        obtain ⟨hb, hh⟩ : true = b ∧ _ := by simpa using h
        subst hb
        simpa using hh.symm
  · rw [if_neg hex] at h
    obtain ⟨hb, hh⟩ : true = b ∧ _ := by simpa using h
    subst hb
    simpa using hh.symm

/-- C3 amended: the Differ updates the hash cache only when the locally
known hash matches the manifest hash (storing the lower-cased manifest
hash); whenever the file is classified stale the cache is returned
unchanged. -/
theorem cache_updated_only_on_match (file_data : UpdateFileData) (dir : Disk)
    (hashes : Cache) (b : Bool) (hashes' : Cache)
    (h : verify_file_needs_download file_data dir hashes = some (b, hashes')) :
    hashes' =
      if b then hashes
      else cacheInsert hashes file_data.path (lowerStr file_data.blake3) :=
  verify_cache_update_shape file_data dir hashes b hashes' h

/-- Witness for the amended C3 at a concrete input: path `"p"` exists with
computed hash `"AA"` matching manifest hash `"aa"`, empty cache; the cache
gains the lower-cased manifest hash. -/
theorem cache_updated_only_on_match_witness :
    cacheInsert [] "p" (lowerStr "aa") =
      if false then ([] : Cache)
      else cacheInsert [] (UpdateFileData.mk "aa" 1 "p").path
        (lowerStr (UpdateFileData.mk "aa" 1 "p").blake3) :=
  cache_updated_only_on_match (UpdateFileData.mk "aa" 1 "p")
    [("p", some "AA")] [] false (cacheInsert [] "p" (lowerStr "aa")) (by rfl)

/-! ## C8 — loading the hash cache never fails -/

/-- C8: loading the hash cache returns the empty map whenever the cache file
is missing (`read = none`), whitespace-empty, or unparseable JSON — for
every directory state and parser behaviour. (`get_cache` returns a plain
map, so it cannot return an error at all.) -/
theorem get_cache_missing_empty_or_malformed (read : Option String)
    (parse : String → Option Cache)
    (h : read = none ∨ (∃ s, read = some s ∧ (trimStr s).isEmpty = true) ∨
      (∃ s, read = some s ∧ parse s = none)) :
    get_cache read parse = [] := by
  rcases h with rfl | ⟨s, rfl, hs⟩ | ⟨s, rfl, hs⟩
  · have hemp : (trimStr "").isEmpty = true := rfl
    simp [get_cache, hemp]
  · simp [get_cache, hs]
  · unfold get_cache
    dsimp only [Option.getD]
    split
    · rfl
    · simp [hs]

/-- Witness for C8 at concrete inputs: a missing file with a parser that
always succeeds with a non-empty map. -/
theorem get_cache_missing_empty_or_malformed_witness :
    get_cache none (fun _ => some [("a", "b")]) = [] :=
  get_cache_missing_empty_or_malformed none (fun _ => some [("a", "b")])
    (Or.inl rfl)

/-! ## C10 — unwrap on a failed hash computation panics the Differ -/

/-- C10: when the target path exists, the hash cache has no entry for it,
and computing the content hash fails with an I/O error, the Differ panics
(the `.unwrap()` at `game.rs:37`, modelled as `none`) instead of returning
the error to the caller — the function's `bool` return type has no error
channel at all. -/
theorem differ_panics_on_hash_io_error (file_data : UpdateFileData)
    (dir : Disk) (hashes : Cache)
    (hex : diskExists dir file_data.path = true)
    (hmiss : cacheGet hashes file_data.path = none)
    (herr : diskBlake3 dir file_data.path = none) :
    verify_file_needs_download file_data dir hashes = none := by
  rw [verify_file_needs_download_eq, if_pos hex]
  unfold local_known_hash
  rw [hmiss, herr]

/-- Witness for C10 at a concrete input: path `"p"` exists but hashing it
fails, and the cache is empty. -/
theorem differ_panics_on_hash_io_error_witness :
    verify_file_needs_download (UpdateFileData.mk "aa" 1 "p")
      [("p", none)] [] = none :=
  differ_panics_on_hash_io_error (UpdateFileData.mk "aa" 1 "p")
    [("p", none)] [] (by rfl) (by rfl) (by rfl)

/-! ## C9 — progress increments of the diffing pass -/

/-- C9: the short-circuit compensation at `game.rs:90-92` measures the
remaining members against `update_data.files.len()` (the number of
standalone files) instead of `archive.files.len()`, contradicting the
intent stated by the comment above it ("add the remaining file count").
On a manifest with no standalone files and one archive of two members whose
first member is stale, `verify_files` issues 1 progress increment while the
declared verify total (the progress bar length) is 2. -/
theorem verify_progress_undercount_cex :
    verify_files
        (UpdateData.mk
          [UpdateArchive.mk (UpdateFileData.mk "cc" 4 "arch.zip") "u"
            [UpdateFileData.mk "aa" 1 "m1", UpdateFileData.mk "bb" 2 "m2"]]
          [])
        [] [] =
      some ([UpdateArchive.mk (UpdateFileData.mk "cc" 4 "arch.zip") "u"
          [UpdateFileData.mk "aa" 1 "m1", UpdateFileData.mk "bb" 2 "m2"]],
        [], [], 1) ∧
      get_total_verify_count
        (UpdateData.mk
          [UpdateArchive.mk (UpdateFileData.mk "cc" 4 "arch.zip") "u"
            [UpdateFileData.mk "aa" 1 "m1", UpdateFileData.mk "bb" 2 "m2"]]
          []) = 2 := by
  constructor <;> rfl

/-! ## C2 — no deletion of the corrupt file between retry attempts -/

/-- C2 counterexample: for file `"f"` with manifest hash `"aa"`, attempt 1
completes but re-hashes to `"bb"` (mismatch) and attempt 2 completes with a
matching hash. The full event trace of `download_file_to_disk` is
`[attempt 1, verify failure, attempt 2, verify success]` and contains no
file-deletion event: the corrupt file is NOT deleted before the next retry
attempt (the mismatch arm at `game.rs:218-226` only sleeps; no
`remove_file` call exists in that loop). -/
theorem download_no_delete_before_retry_cex :
    (download_file_to_disk (UpdateFileData.mk "aa" 3 "f")
          (fun _ n => if n = 1 then .wrote (.ok "bb") else .wrote (.ok "aa"))
          []).2 =
        [.downloadAttempt "f" 1, .verifyFail "f",
         .downloadAttempt "f" 2, .verifyOk "f"] ∧
      ((download_file_to_disk (UpdateFileData.mk "aa" 3 "f")
          (fun _ n => if n = 1 then .wrote (.ok "bb") else .wrote (.ok "aa"))
          []).2.filter isDeleteEv) = [] := by
  constructor <;> rfl

/-- C2 amended: the retry loop never deletes anything: no attempt outcome,
for any file and starting cache, makes `download_file_to_disk` emit a
file-deletion event. On a hash mismatch the file is simply left in place and
the next attempt rewrites it from scratch (`File::create` at `http.rs:110`
truncates). -/
theorem download_retry_never_deletes (file_data : UpdateFileData)
    (dl : String → Nat → AttemptOutcome) (hashes : Cache) :
    ((download_file_to_disk file_data dl hashes).2.filter isDeleteEv) = [] := by
  unfold download_file_to_disk
  generalize 0 = attempts
  induction MAX_DOWNLOAD_ATTEMPTS generalizing attempts hashes with
  | zero => rfl
  | succ fuel ih =>
    unfold downloadGo
    dsimp only
    cases hdl : dl file_data.path (attempts + 1) with
    | netErr =>
      simp only [hdl]
      simp [isDeleteEv, ih]
    | wrote hashResult =>
      simp only [hdl]
      cases hr : verify_downloaded_file hashResult file_data.blake3 with
      | error e =>
        simp only [hr]
        simp [isDeleteEv]
      | ok b =>
        cases b with
        | true =>
          simp only [hr]
          simp [isDeleteEv]
        | false =>
          simp only [hr]
          simp [isDeleteEv, ih]

/-! ## C6 — extraction skips exactly the verified members -/

/-- The extractor's up-to-date check for one member (`game.rs:265-266`): the
target file exists and its content hash verifies against the member's
expected hash. -/
def member_is_skipped (or : Oracles) (m : UpdateFileData) : Bool :=
  or.memberOnDisk m.path &&
    match or.memberHash m.path with
    | .ok h => lowerStr h = lowerStr m.blake3
    | .error _ => false

/-- The member loop's trace on success: one event per declared member, a
skip for an up-to-date member and an extraction for every other member. -/
theorem extractLoop_ok_trace (or : Oracles) (aname : String) :
    ∀ members : List UpdateFileData,
      (extractLoop or aname members).1 = Except.ok () →
      (extractLoop or aname members).2 = members.map (fun m =>
        if member_is_skipped or m then Ev.skipMember aname m.path
        else Ev.extractMember aname m.path)
  | [] => fun _ => rfl
  | m :: rest => by
    intro h
    rcases hrest : extractLoop or aname rest with ⟨r, evs⟩
    have ih := extractLoop_ok_trace or aname rest
    rw [hrest] at ih
    unfold extractLoop at h ⊢
    dsimp only at h ⊢
    by_cases hod : or.memberOnDisk m.path
    · rw [if_pos hod] at h ⊢
      cases hmh : or.memberHash m.path with
      | error e =>
        rw [hmh] at h
        dsimp only [verify_downloaded_file] at h
        simp at h
      | ok hstr =>
        rw [hmh] at h
        dsimp only [verify_downloaded_file] at h ⊢
        by_cases heq : lowerStr hstr = lowerStr m.blake3
        · rw [decide_eq_true heq] at h ⊢
          rw [hrest] at h ⊢
          dsimp only at h ⊢
          have hskip : member_is_skipped or m = true := by
            simp [member_is_skipped, hod, hmh, heq]
          rw [List.map_cons, if_pos hskip]
          exact congrArg _ (ih h)
        · rw [decide_eq_false heq] at h ⊢
          have hskip : member_is_skipped or m = false := by
            simp [member_is_skipped, hmh, heq]
          by_cases hzip : or.memberInZip m.path
          · rw [if_pos hzip] at h ⊢
            by_cases hpd : or.parentDirOk m.path
            · rw [if_pos hpd] at h ⊢
              rw [hrest] at h ⊢
              dsimp only at h ⊢
              rw [List.map_cons, if_neg (by simp [hskip])]
              exact congrArg _ (ih h)
            · rw [if_neg hpd] at h
              simp at h
          · rw [if_neg hzip] at h
            simp at h
    · rw [if_neg hod] at h ⊢
      have hskip : member_is_skipped or m = false := by
        simp [member_is_skipped, hod]
      by_cases hzip : or.memberInZip m.path
      · rw [if_pos hzip] at h ⊢
        by_cases hpd : or.parentDirOk m.path
        · rw [if_pos hpd] at h ⊢
          rw [hrest] at h ⊢
          dsimp only at h ⊢
          rw [List.map_cons, if_neg (by simp [hskip])]
          exact congrArg _ (ih h)
        · rw [if_neg hpd] at h
          simp at h
      · rw [if_neg hzip] at h
        simp at h

/-- C6: when extraction of an archive succeeds, its event trace is exactly
one event per declared member, in declaration order: a member whose target
file exists and verifies against the member's expected hash is skipped, and
every other declared member is extracted. Re-running extraction therefore
extracts exactly the missing or hash-mismatched members. -/
theorem extract_exactly_unverified_members (or : Oracles)
    (archive : UpdateArchive)
    (h : (extract_archive or archive).1 = Except.ok ()) :
    (extract_archive or archive).2 = archive.files.map (fun m =>
      if member_is_skipped or m then
        Ev.skipMember archive.file_data.path m.path
      else
        Ev.extractMember archive.file_data.path m.path) := by
  unfold extract_archive at h ⊢
  by_cases hz : or.zipOpen archive.file_data.path
  · rw [if_pos hz] at h ⊢
    exact extractLoop_ok_trace or archive.file_data.path archive.files h
  · rw [if_neg hz] at h
    exact absurd h (by simp)

/-- Concrete oracle for the C6 witness: member `"m1"` is on disk with
content hash `"AA"`, everything is findable in the zip. -/
def c6Oracles : Oracles :=
  ⟨fun _ _ => .netErr, fun _ => true, fun _ => false, fun _ => .error "",
   fun _ => true, fun p => p = "m1", fun _ => .ok "AA", fun _ => true,
   fun _ => true⟩

/-- Concrete archive for the C6 witness: two members, `"m1"` (up to date,
manifest hash `"aa"`) and `"m2"` (absent). -/
def c6Archive : UpdateArchive :=
  ⟨⟨"cc", 4, "a.zip"⟩, "u", [⟨"aa", 1, "m1"⟩, ⟨"bb", 2, "m2"⟩]⟩

/-- Witness for C6 at a concrete input: `"m1"` verifies and is skipped,
`"m2"` is missing and gets extracted. -/
theorem extract_exactly_unverified_members_witness :
    (extract_archive c6Oracles c6Archive).2 = c6Archive.files.map (fun m =>
      if member_is_skipped c6Oracles m then
        Ev.skipMember c6Archive.file_data.path m.path
      else
        Ev.extractMember c6Archive.file_data.path m.path) :=
  extract_exactly_unverified_members c6Oracles c6Archive (by rfl)

/-! ## C5 — exhausted retries abort the whole sync pass -/

/-- An attempt outcome that does not produce a hash match: a transport
error, or a completed download whose re-hash succeeds but mismatches. (A
failed re-hash is excluded: it propagates as a different, earlier error.) -/
def attempt_no_match (file_data : UpdateFileData) : AttemptOutcome → Bool
  | .netErr => true
  | .wrote (.ok h) => ¬ (lowerStr h = lowerStr file_data.blake3)
  | .wrote (.error _) => false

/-- If both configured attempts fail to produce a hash match, the retry loop
returns the exhaustion error, which names the file's path. -/
theorem download_exhausts (file_data : UpdateFileData)
    (dl : String → Nat → AttemptOutcome) (hashes : Cache)
    (h1 : attempt_no_match file_data (dl file_data.path 1) = true)
    (h2 : attempt_no_match file_data (dl file_data.path 2) = true) :
    (download_file_to_disk file_data dl hashes).1 =
      .error (exhaustedMsg file_data.path) := by
  have step : ∀ (attempts : Nat) (hs : Cache),
      attempt_no_match file_data (dl file_data.path (attempts + 1)) = true →
      ∀ fuel, (downloadGo file_data dl hs attempts (fuel + 1)).1 =
        (downloadGo file_data dl hs (attempts + 1) fuel).1 := by
    intro attempts hs hnm fuel
    conv_lhs => rw [downloadGo]
    cases hdl : dl file_data.path (attempts + 1) with
    | netErr => rfl
    | wrote hashResult =>
      rw [hdl] at hnm
      cases hashResult with
      | error e => simp [attempt_no_match] at hnm
      | ok hstr =>
        have hne : ¬ lowerStr hstr = lowerStr file_data.blake3 := by
          simpa [attempt_no_match] using hnm
        dsimp only [verify_downloaded_file]
        rw [decide_eq_false hne]
  calc (download_file_to_disk file_data dl hashes).1
      = (downloadGo file_data dl hashes 0 (1 + 1)).1 := rfl
    _ = (downloadGo file_data dl hashes (0 + 1) 1).1 := step 0 hashes h1 1
    _ = (downloadGo file_data dl hashes 1 (0 + 1)).1 := rfl
    _ = (downloadGo file_data dl hashes (1 + 1) 0).1 := step 1 hashes h2 0
    _ = .error (exhaustedMsg file_data.path) := rfl

/-- The body of one archive iteration of the archive loop
(`game.rs:366-403`), factored out of `downloadArchivesLoop` for reasoning:
returns the cache state to continue with and the iteration's events.
`downloadArchivesLoop_cons` proves the loop steps through it. -/
def archiveStep (or : Oracles) (archive : UpdateArchive) (hashes : Cache) :
    Except String Cache × List Ev :=
  if or.parentDirOk archive.file_data.path then
    let needsDl : Except String Bool :=
      if or.archivePresent archive.file_data.path then
        match verify_downloaded_file (or.archiveHash archive.file_data.path)
            archive.file_data.blake3 with
        | .error e => .error e
        | .ok verified => .ok (!verified)
      else .ok true
    match needsDl with
    | .error e => (.error e, [])
    | .ok true =>
      match download_file_to_disk archive.file_data or.dl hashes with
      | (.error e, evs) => (.error e, evs)
      | (.ok hashes', evs) =>
        match extract_archive or archive with
        | (.error e, xevs) => (.error e, evs ++ xevs)
        | (.ok (), xevs) =>
          if or.removeOk archive.file_data.path then
            (.ok hashes',
              evs ++ xevs ++ [Ev.deleteFile archive.file_data.path])
          else
            (.error ("Failed to remove " ++ archive.file_data.path),
              evs ++ xevs)
    | .ok false =>
      match extract_archive or archive with
      | (.error e, xevs) => (.error e, xevs)
      | (.ok (), xevs) =>
        if or.removeOk archive.file_data.path then
          (.ok hashes, xevs ++ [Ev.deleteFile archive.file_data.path])
        else
          (.error ("Failed to remove " ++ archive.file_data.path), xevs)
  else
    (.error ("Failed to create directory " ++ archive.file_data.path), [])

/-- The archive loop processes its head through `archiveStep` and, on
success, continues with the returned cache. -/
theorem downloadArchivesLoop_cons (or : Oracles) (archive : UpdateArchive)
    (rest : List UpdateArchive) (hashes : Cache) :
    downloadArchivesLoop or (archive :: rest) hashes =
      match archiveStep or archive hashes with
      | (.error e, evs) => (.error e, evs)
      | (.ok hashes₁, evs) =>
        ((downloadArchivesLoop or rest hashes₁).1,
          evs ++ (downloadArchivesLoop or rest hashes₁).2) := by
  conv_lhs => rw [downloadArchivesLoop]
  unfold archiveStep
  by_cases hpd : or.parentDirOk archive.file_data.path
  · simp only [if_pos hpd]
    by_cases hap : or.archivePresent archive.file_data.path
    · simp only [if_pos hap]
      cases verify_downloaded_file (or.archiveHash archive.file_data.path)
          archive.file_data.blake3 with
      | error e => rfl
      | ok verified =>
        cases verified with
        | true =>
          simp only [Bool.not_true]
          obtain ⟨rx, xevs⟩ := extract_archive or archive
          cases rx with
          | error e => rfl
          | ok u =>
            cases u
            rcases hX : downloadArchivesLoop or rest hashes with ⟨r₂, evs₂⟩
            by_cases hrm : or.removeOk archive.file_data.path <;>
              simp [hrm, hX, List.append_assoc]
        | false =>
          simp only [Bool.not_false]
          obtain ⟨r, devs⟩ := download_file_to_disk archive.file_data or.dl hashes
          cases r with
          | error e => rfl
          | ok hs₁ =>
            dsimp only
            obtain ⟨rx, xevs⟩ := extract_archive or archive
            cases rx with
            | error e => rfl
            | ok u =>
              cases u
              rcases hX : downloadArchivesLoop or rest hs₁ with ⟨r₂, evs₂⟩
              by_cases hrm : or.removeOk archive.file_data.path <;>
                simp [hrm, hX, List.append_assoc]
    · simp only [if_neg hap]
      obtain ⟨r, devs⟩ := download_file_to_disk archive.file_data or.dl hashes
      cases r with
      | error e => rfl
      | ok hs₁ =>
        dsimp only
        obtain ⟨rx, xevs⟩ := extract_archive or archive
        cases rx with
        | error e => rfl
        | ok u =>
          cases u
          rcases hX : downloadArchivesLoop or rest hs₁ with ⟨r₂, evs₂⟩
          by_cases hrm : or.removeOk archive.file_data.path <;>
            simp [hrm, hX, List.append_assoc]
  · simp only [if_neg hpd]

/-- A successfully processed prefix of the standalone-file loop composes
with the processing of the remaining files. -/
theorem downloadFilesLoop_append (or : Oracles) :
    ∀ (done : List UpdateFile) (hs cmid : Cache) (devs : List Ev),
      downloadFilesLoop or done hs = (.ok cmid, devs) →
      ∀ tail, downloadFilesLoop or (done ++ tail) hs =
        ((downloadFilesLoop or tail cmid).1,
          devs ++ (downloadFilesLoop or tail cmid).2)
  | [], hs, cmid, devs => by
    intro h tail
    obtain ⟨hc, hd⟩ : hs = cmid ∧ devs = [] := by
      simpa [downloadFilesLoop] using h
    rw [← hc, hd]
    exact Prod.mk.eta.symm
  | f :: done', hs, cmid, devs => by
    intro h tail
    rw [List.cons_append]
    rw [downloadFilesLoop] at h
    conv_lhs => rw [downloadFilesLoop]
    by_cases hpd : or.parentDirOk f.file_data.path
    · rw [if_pos hpd] at h ⊢
      rcases hdl : download_file_to_disk f.file_data or.dl hs with ⟨r, evsf⟩
      rw [hdl] at h
      cases r with
      | error e => simp at h
      | ok hs₁ =>
        dsimp only at h ⊢
        rcases hrec : downloadFilesLoop or done' hs₁ with ⟨r', evs'⟩
        rw [hrec] at h
        dsimp only at h
        obtain ⟨hr, hd⟩ : r' = Except.ok cmid ∧ evsf ++ evs' = devs := by
          simpa using h
        rw [hr] at hrec
        rw [downloadFilesLoop_append or done' hs₁ cmid evs' hrec tail]
        dsimp only
        rw [← hd]
        rcases hT : downloadFilesLoop or tail cmid with ⟨rt, evst⟩
        simp [hT, List.append_assoc]
    · rw [if_neg hpd] at h
      simp at h

/-- A successfully processed prefix of the archive loop composes with the
processing of the remaining archives. -/
theorem downloadArchivesLoop_append (or : Oracles) :
    ∀ (done : List UpdateArchive) (hs cmid : Cache) (devs : List Ev),
      downloadArchivesLoop or done hs = (.ok cmid, devs) →
      ∀ tail, downloadArchivesLoop or (done ++ tail) hs =
        ((downloadArchivesLoop or tail cmid).1,
          devs ++ (downloadArchivesLoop or tail cmid).2)
  | [], hs, cmid, devs => by
    intro h tail
    obtain ⟨hc, hd⟩ : hs = cmid ∧ devs = [] := by
      simpa [downloadArchivesLoop] using h
    rw [← hc, hd]
    exact Prod.mk.eta.symm
  | a :: done', hs, cmid, devs => by
    intro h tail
    rw [downloadArchivesLoop_cons] at h
    rw [List.cons_append, downloadArchivesLoop_cons]
    rcases hstep : archiveStep or a hs with ⟨r, evsa⟩
    rw [hstep] at h
    cases r with
    | error e => simp at h
    | ok hs₁ =>
      dsimp only at h ⊢
      rcases hrec : downloadArchivesLoop or done' hs₁ with ⟨r', evs'⟩
      rw [hrec] at h
      dsimp only at h
      obtain ⟨hr, hd⟩ : r' = Except.ok cmid ∧ evsa ++ evs' = devs := by
        simpa using h
      rw [hr] at hrec
      rw [downloadArchivesLoop_append or done' hs₁ cmid evs' hrec tail]
      dsimp only
      rw [← hd]
      rcases hT : downloadArchivesLoop or tail cmid with ⟨rt, evst⟩
      simp [hT, List.append_assoc]

/-- C5: whenever the retry loop exhausts both attempts for one file without
a hash match — any standalone file reached after the earlier standalone
files succeeded, or any archive artifact reached after all standalone files
and the earlier archives succeeded — `download_files` returns the
exhaustion error naming that file's path, and the whole pass's trace ends
with that file's retry trace: none of the remaining files or archives is
processed. -/
theorem exhausted_download_aborts_sync (update_data : UpdateData)
    (dir : Disk) (hashes : Cache) (selArch : List UpdateArchive)
    (selFiles : List UpdateFile) (hashes₁ : Cache) (n : Nat)
    (hverify : verify_files update_data dir hashes =
      some (selArch, selFiles, hashes₁, n)) :
    (∀ (or : Oracles) (done : List UpdateFile) (f : UpdateFile)
      (rest : List UpdateFile) (cmid : Cache) (devs : List Ev),
      selFiles = done ++ f :: rest →
      downloadFilesLoop or done hashes₁ = (.ok cmid, devs) →
      or.parentDirOk f.file_data.path = true →
      attempt_no_match f.file_data (or.dl f.file_data.path 1) = true →
      attempt_no_match f.file_data (or.dl f.file_data.path 2) = true →
      download_files update_data dir or hashes =
        some (.error (exhaustedMsg f.file_data.path),
          devs ++ (download_file_to_disk f.file_data or.dl cmid).2)) ∧
    (∀ (or : Oracles) (c₂ : Cache) (fevs : List Ev)
      (doneA : List UpdateArchive) (a : UpdateArchive)
      (restA : List UpdateArchive) (cmid : Cache) (aevs : List Ev),
      selArch = doneA ++ a :: restA →
      downloadFilesLoop or selFiles hashes₁ = (.ok c₂, fevs) →
      downloadArchivesLoop or doneA c₂ = (.ok cmid, aevs) →
      or.parentDirOk a.file_data.path = true →
      (or.archivePresent a.file_data.path = false ∨
        verify_downloaded_file (or.archiveHash a.file_data.path)
          a.file_data.blake3 = .ok false) →
      attempt_no_match a.file_data (or.dl a.file_data.path 1) = true →
      attempt_no_match a.file_data (or.dl a.file_data.path 2) = true →
      download_files update_data dir or hashes =
        some (.error (exhaustedMsg a.file_data.path),
          fevs ++ (aevs ++ (download_file_to_disk a.file_data or.dl cmid).2))) := by
  constructor
  · intro or done f rest cmid devs hsplit hdone hdir h1 h2
    unfold download_files
    rw [hverify]
    dsimp only
    rw [if_neg (by simp [hsplit])]
    rw [hsplit, downloadFilesLoop_append or done hashes₁ cmid devs hdone
      (f :: rest)]
    rcases hdl : download_file_to_disk f.file_data or.dl cmid with ⟨r, ftr⟩
    have hout := download_exhausts f.file_data or.dl cmid h1 h2
    rw [hdl] at hout
    dsimp only at hout
    subst hout
    have hloop : downloadFilesLoop or (f :: rest) cmid =
        (.error (exhaustedMsg f.file_data.path), ftr) := by
      unfold downloadFilesLoop
      rw [if_pos hdir, hdl]
    rw [hloop]
  · intro or c₂ fevs doneA a restA cmid aevs hsplit hfl hdone hdir hnd h1 h2
    unfold download_files
    rw [hverify]
    dsimp only
    rw [if_neg (by rw [hsplit]; cases doneA <;> simp)]
    rw [hfl]
    dsimp only
    rw [hsplit, downloadArchivesLoop_append or doneA c₂ cmid aevs hdone
      (a :: restA)]
    rcases hdl : download_file_to_disk a.file_data or.dl cmid with ⟨r, atr⟩
    have hout := download_exhausts a.file_data or.dl cmid h1 h2
    rw [hdl] at hout
    dsimp only at hout
    subst hout
    have hstep : archiveStep or a cmid =
        (.error (exhaustedMsg a.file_data.path), atr) := by
      unfold archiveStep
      rw [if_pos hdir]
      dsimp only
      rcases hnd with hnd | hnd
      · rw [if_neg (by simp [hnd]), hdl]
      · by_cases hap : or.archivePresent a.file_data.path
        · rw [if_pos hap, hnd]
          simp only [Bool.not_false]
          rw [hdl]
        · rw [if_neg hap, hdl]
    have hloop : downloadArchivesLoop or (a :: restA) cmid =
        (.error (exhaustedMsg a.file_data.path), atr) := by
      rw [downloadArchivesLoop_cons, hstep]
    rw [hloop]

/-- Concrete oracle for the C5 witness: every download attempt is a
transport error, parent directories can be created, the archive artifact is
never already present. -/
def c5Oracles : Oracles :=
  ⟨fun _ _ => .netErr, fun _ => true, fun _ => false, fun _ => .error "",
   fun _ => false, fun _ => false, fun _ => .error "", fun _ => false,
   fun _ => false⟩

/-- Concrete manifest for the standalone half of the C5 witness: one
standalone file `"x"`. -/
def c5Update : UpdateData :=
  ⟨[], [⟨⟨"aa", 5, "x"⟩, "http://u"⟩]⟩

/-- Concrete archive for the archive half of the C5 witness. -/
def c5Archive : UpdateArchive := ⟨⟨"cc", 2, "a.zip"⟩, "u", [⟨"bb", 1, "m1"⟩]⟩

/-- Concrete manifest for the archive half of the C5 witness: one archive
whose only member is missing. -/
def c5UpdateArch : UpdateData := ⟨[c5Archive], []⟩

/-- Witness for C5 at concrete inputs: a standalone file whose two attempts
fail aborts the pass naming `"x"`, and an archive artifact whose two
attempts fail aborts the pass naming `"a.zip"`. -/
theorem exhausted_download_aborts_sync_witness :
    (download_files c5Update [] c5Oracles [] =
      some (.error (exhaustedMsg "x"),
        [] ++ (download_file_to_disk ⟨"aa", 5, "x"⟩ c5Oracles.dl []).2)) ∧
    (download_files c5UpdateArch [] c5Oracles [] =
      some (.error (exhaustedMsg "a.zip"),
        [] ++ ([] ++ (download_file_to_disk ⟨"cc", 2, "a.zip"⟩
          c5Oracles.dl []).2))) :=
  ⟨(exhausted_download_aborts_sync c5Update [] []
      [] [⟨⟨"aa", 5, "x"⟩, "http://u"⟩] [] 1 (by rfl)).1
    c5Oracles [] ⟨⟨"aa", 5, "x"⟩, "http://u"⟩ [] [] []
    (by rfl) (by rfl) (by rfl) (by rfl) (by rfl),
   (exhausted_download_aborts_sync c5UpdateArch [] []
      [c5Archive] [] [] 1 (by rfl)).2
    c5Oracles [] [] [] c5Archive [] [] []
    (by rfl) (by rfl) (by rfl) (by rfl) (Or.inl (by rfl)) (by rfl) (by rfl)⟩

/-! ## Lower-casing is idempotent (needed for the cache-invariance results) -/

/-- `Char.ofNat` on a valid code point round-trips through `toNat`. -/
theorem toNat_ofNat_valid (n : Nat) (h : n.isValidChar) :
    (Char.ofNat n).toNat = n := by
  unfold Char.ofNat
  rw [dif_pos h]
  unfold Char.ofNatAux Char.toNat
  simp [UInt32.toNat]

theorem lowerChar_idem (c : Char) : lowerChar (lowerChar c) = lowerChar c := by
  unfold lowerChar
  by_cases h : 65 ≤ c.toNat ∧ c.toNat ≤ 90
  · rw [if_pos h]
    have hv : (c.toNat + 32).isValidChar := Or.inl (by omega)
    have ht : (Char.ofNat (c.toNat + 32)).toNat = c.toNat + 32 :=
      toNat_ofNat_valid _ hv
    rw [if_neg (by rw [ht]; omega)]
  · rw [if_neg h, if_neg h]

theorem lowerStr_idem (s : String) : lowerStr (lowerStr s) = lowerStr s := by
  unfold lowerStr
  simp only [List.map_map]
  congr 1
  exact List.map_congr_left (fun c _ => lowerChar_idem c)

/-! ## Association-list lemmas for the hash cache -/

theorem cacheGet_insert_self (m : Cache) (k v : String) :
    cacheGet (cacheInsert m k v) k = some v := by
  induction m with
  | nil => simp [cacheInsert, cacheGet]
  | cons kv rest ih =>
    obtain ⟨k0, v0⟩ := kv
    unfold cacheInsert
    by_cases hk : k0 = k
    · rw [if_pos hk]
      simp [cacheGet, hk]
    · rw [if_neg hk]
      simp [cacheGet, hk, ih]

theorem cacheGet_insert_ne (m : Cache) (k v k' : String) (h : k ≠ k') :
    cacheGet (cacheInsert m k v) k' = cacheGet m k' := by
  induction m with
  | nil => simp [cacheInsert, cacheGet, h]
  | cons kv rest ih =>
    obtain ⟨k0, v0⟩ := kv
    unfold cacheInsert
    by_cases hk : k0 = k
    · rw [if_pos hk]
      simp only [cacheGet]
      rw [if_neg (by rw [hk]; exact h), if_neg (by rw [hk]; exact h)]
    · rw [if_neg hk]
      simp only [cacheGet]
      by_cases hk' : k0 = k'
      · rw [if_pos hk', if_pos hk']
      · rw [if_neg hk', if_neg hk', ih]

/-! ## Cache updates made by the Differ never change later decisions -/

/-- Two cache states inducing the same staleness decision (including panic
behaviour) for every manifest entry, over a fixed disk snapshot. -/
def DecisionsEq (dir : Disk) (c₁ c₂ : Cache) : Prop :=
  ∀ m : UpdateFileData,
    (verify_file_needs_download m dir c₁).map Prod.fst =
      (verify_file_needs_download m dir c₂).map Prod.fst

theorem decisionsEq_refl (dir : Disk) (c : Cache) : DecisionsEq dir c c :=
  fun _ => rfl

theorem decisionsEq_trans {dir : Disk} {c₁ c₂ c₃ : Cache}
    (h1 : DecisionsEq dir c₁ c₂) (h2 : DecisionsEq dir c₂ c₃) :
    DecisionsEq dir c₁ c₃ :=
  fun m => (h1 m).trans (h2 m)

/-- When the Differ classifies a file as up to date, the path exists and the
locally known hash matches the manifest hash. -/
theorem verify_false_facts (m : UpdateFileData) (dir : Disk) (c c' : Cache)
    (h : verify_file_needs_download m dir c = some (false, c')) :
    diskExists dir m.path = true ∧
    ∃ hl, local_known_hash m dir c = some hl ∧
      lowerStr hl = lowerStr m.blake3 := by
  rw [verify_file_needs_download_eq] at h
  by_cases hex : diskExists dir m.path
  · rw [if_pos hex] at h
    cases hlk : local_known_hash m dir c with
    | none => rw [hlk] at h; cases h
    | some hl =>
      rw [hlk] at h
      dsimp only at h
      by_cases heq : lowerStr hl = lowerStr m.blake3
      · exact ⟨hex, hl, rfl, heq⟩
      · rw [if_neg heq] at h
        simp at h
  · rw [if_neg hex] at h
    simp at h

/-- `local_known_hash` only depends on the entry's path. -/
theorem local_known_hash_congr (m m' : UpdateFileData) (dir : Disk)
    (c : Cache) (h : m.path = m'.path) :
    local_known_hash m dir c = local_known_hash m' dir c := by
  unfold local_known_hash
  rw [h]

/-- Key invariance: one step of the Differ (a `some` return of
`verify_file_needs_download`) never changes the staleness decision of any
later check. The cache is only ever extended with the lower-cased manifest
hash of a matching entry, and comparisons lower-case both sides, so a later
lookup of the same path sees an equivalent value. -/
theorem verify_preserves_decisions (m : UpdateFileData) (dir : Disk)
    (c : Cache) (b : Bool) (c' : Cache)
    (h : verify_file_needs_download m dir c = some (b, c')) :
    DecisionsEq dir c' c := by
  have hc' := verify_cache_update_shape m dir c b c' h
  cases b with
  | true =>
    rw [if_pos rfl] at hc'
    rw [hc']
    exact decisionsEq_refl dir c
  | false =>
    rw [if_neg (by simp)] at hc'
    obtain ⟨hex, hl, hlk, heq⟩ := verify_false_facts m dir c c' h
    subst hc'
    intro m'
    rw [verify_file_needs_download_eq, verify_file_needs_download_eq]
    by_cases hp : m.path = m'.path
    · have hex' : diskExists dir m'.path = true := hp ▸ hex
      rw [if_pos hex', if_pos hex']
      have h1 : local_known_hash m' dir
          (cacheInsert c m.path (lowerStr m.blake3)) =
            some (lowerStr m.blake3) := by
        unfold local_known_hash
        rw [← hp, cacheGet_insert_self]
      have h2 : local_known_hash m' dir c = some hl := by
        rw [← local_known_hash_congr m m' dir c hp]
        exact hlk
      rw [h1, h2]
      dsimp only
      have hll : lowerStr (lowerStr m.blake3) = lowerStr hl := by
        rw [lowerStr_idem]
        exact heq.symm
      rw [hll]
      by_cases he : lowerStr hl = lowerStr m'.blake3 <;> simp [he]
    · have h1 : local_known_hash m' dir
          (cacheInsert c m.path (lowerStr m.blake3)) =
            local_known_hash m' dir c := by
        unfold local_known_hash
        rw [cacheGet_insert_ne c m.path _ m'.path hp]
      rw [h1]
      by_cases hex' : diskExists dir m'.path
      · rw [if_pos hex', if_pos hex']
        cases local_known_hash m' dir c with
        | none => rfl
        | some hl' =>
          dsimp only
          by_cases he : lowerStr hl' = lowerStr m'.blake3 <;> simp [he]
      · rw [if_neg hex', if_neg hex']
        rfl

/-- The staleness decision of the standalone-file rule w.r.t. a reference
cache state: the entry is classified as needing download (and the check does
not panic). -/
def decided_stale (dir : Disk) (c : Cache) (m : UpdateFileData) : Prop :=
  (verify_file_needs_download m dir c).map Prod.fst = some true

/-- The standalone-file loop preserves all staleness decisions. -/
theorem verifyFilesLoop_decisions (dir : Disk) :
    ∀ (files : List UpdateFile) (c : Cache) (sel : List UpdateFile)
      (c' : Cache) (n : Nat),
      verifyFilesLoop files dir c = some (sel, c', n) → DecisionsEq dir c' c
  | [], c, sel, c', n => by
    intro h
    obtain ⟨-, hc, -⟩ : ([] : List UpdateFile) = sel ∧ c = c' ∧ 0 = n := by
      simpa [verifyFilesLoop] using h
    rw [← hc]
    exact decisionsEq_refl dir c
  | f :: rest, c, sel, c', n => by
    intro h
    unfold verifyFilesLoop at h
    cases hv : verify_file_needs_download f.file_data dir c with
    | none => rw [hv] at h; cases h
    | some pr =>
      obtain ⟨need, c₁⟩ := pr
      rw [hv] at h
      dsimp only at h
      cases hrec : verifyFilesLoop rest dir c₁ with
      | none => rw [hrec] at h; cases h
      | some tr =>
        obtain ⟨sel₂, c₂, n₂⟩ := tr
        rw [hrec] at h
        dsimp only at h
        obtain ⟨-, hc, -⟩ := by simpa using h
        rw [← hc]
        exact decisionsEq_trans (verifyFilesLoop_decisions dir rest c₁ sel₂ c₂ n₂ hrec)
          (verify_preserves_decisions f.file_data dir c need c₁ hv)

/-- The archive member scan: its boolean is `true` exactly when some
declared member is stale w.r.t. the reference cache, and decisions are
preserved. -/
theorem archiveScan_characterizes (dir : Disk) (c₀ : Cache) :
    ∀ (members : List UpdateFileData) (c : Cache), DecisionsEq dir c c₀ →
      ∀ b c' cnt, archiveScan members dir c = some (b, c', cnt) →
        ((b = true ↔ ∃ m ∈ members, decided_stale dir c₀ m) ∧
          DecisionsEq dir c' c₀)
  | [], c => by
    intro hde b c' cnt h
    obtain ⟨hb, hc, -⟩ : false = b ∧ c = c' ∧ 0 = cnt := by
      simpa [archiveScan] using h
    rw [← hb, ← hc]
    exact ⟨by simp, hde⟩
  | m :: rest, c => by
    intro hde b c' cnt h
    unfold archiveScan at h
    cases hv : verify_file_needs_download m dir c with
    | none => rw [hv] at h; cases h
    | some pr =>
      obtain ⟨need, c₁⟩ := pr
      rw [hv] at h
      dsimp only at h
      have hdec : (verify_file_needs_download m dir c₀).map Prod.fst =
          some need := by
        rw [← hde m, hv]
        rfl
      cases need with
      | true =>
        obtain ⟨hb, hc, -⟩ : true = b ∧ c₁ = c' ∧ 1 = cnt := by simpa using h
        rw [← hb, ← hc]
        constructor
        · simp only [true_iff]
          exact ⟨m, List.mem_cons_self m rest, hdec⟩
        · exact decisionsEq_trans
            (verify_preserves_decisions m dir c true c₁ hv) hde
      | false =>
        cases hrec : archiveScan rest dir c₁ with
        | none => rw [hrec] at h; cases h
        | some tr =>
          obtain ⟨b₂, c₂, n₂⟩ := tr
          rw [hrec] at h
          dsimp only at h
          obtain ⟨hb, hc, -⟩ : b₂ = b ∧ c₂ = c' ∧ n₂ + 1 = cnt := by
            simpa using h
          have hde₁ : DecisionsEq dir c₁ c₀ := decisionsEq_trans
            (verify_preserves_decisions m dir c false c₁ hv) hde
          obtain ⟨hiff, hde₂⟩ :=
            archiveScan_characterizes dir c₀ rest c₁ hde₁ b₂ c₂ n₂ hrec
          rw [← hb, ← hc]
          refine ⟨?_, hde₂⟩
          rw [hiff]
          have hmns : ¬ decided_stale dir c₀ m := by
            unfold decided_stale
            rw [hdec]
            simp
          constructor
          · rintro ⟨m', hm', hst⟩
            exact ⟨m', List.mem_cons_of_mem m hm', hst⟩
          · rintro ⟨m', hm', hst⟩
            rcases List.mem_cons.mp hm' with rfl | hm'
            · exact absurd hst hmns
            · exact ⟨m', hm', hst⟩

/-- The archive loop: an archive is collected exactly when it occurs in the
input and has a stale member w.r.t. the reference cache. -/
theorem archivesLoop_characterizes (u : UpdateData) (dir : Disk)
    (c₀ : Cache) :
    ∀ (archives : List UpdateArchive) (c : Cache), DecisionsEq dir c c₀ →
      ∀ sel c' n, verifyArchivesLoop u archives dir c = some (sel, c', n) →
        ((∀ a, a ∈ sel ↔
            (a ∈ archives ∧ ∃ m ∈ a.files, decided_stale dir c₀ m)) ∧
          DecisionsEq dir c' c₀)
  | [], c => by
    intro hde sel c' n h
    obtain ⟨hsel, hc, -⟩ : ([] : List UpdateArchive) = sel ∧ c = c' ∧ 0 = n := by
      simpa [verifyArchivesLoop] using h
    rw [← hsel, ← hc]
    exact ⟨by simp, hde⟩
  | archive :: rest, c => by
    intro hde sel c' n h
    unfold verifyArchivesLoop at h
    cases hv : archiveScan archive.files dir c with
    | none => rw [hv] at h; cases h
    | some pr =>
      obtain ⟨any_stale, c₁, cnt⟩ := pr
      rw [hv] at h
      dsimp only at h
      obtain ⟨hiff₁, hde₁⟩ :=
        archiveScan_characterizes dir c₀ archive.files c hde any_stale c₁ cnt hv
      cases hrec : verifyArchivesLoop u rest dir c₁ with
      | none => rw [hrec] at h; cases h
      | some tr =>
        obtain ⟨sel₂, c₂, n₂⟩ := tr
        rw [hrec] at h
        dsimp only at h
        obtain ⟨hiff₂, hde₂⟩ :=
          archivesLoop_characterizes u dir c₀ rest c₁ hde₁ sel₂ c₂ n₂ hrec
        cases any_stale with
        | true =>
          obtain ⟨hsel, hc, -⟩ := by simpa using h
          rw [← hsel, ← hc]
          refine ⟨?_, hde₂⟩
          intro a
          have hstale : ∃ m ∈ archive.files, decided_stale dir c₀ m :=
            hiff₁.mp rfl
          constructor
          · intro hmem
            rcases List.mem_cons.mp hmem with rfl | hmem
            · exact ⟨List.mem_cons_self _ _, hstale⟩
            · obtain ⟨hin, hst⟩ := (hiff₂ a).mp hmem
              exact ⟨List.mem_cons_of_mem _ hin, hst⟩
          · rintro ⟨hin, hst⟩
            rcases List.mem_cons.mp hin with rfl | hin
            · exact List.mem_cons_self _ _
            · exact List.mem_cons_of_mem _ ((hiff₂ a).mpr ⟨hin, hst⟩)
        | false =>
          obtain ⟨hsel, hc, -⟩ := by simpa using h
          rw [← hsel, ← hc]
          refine ⟨?_, hde₂⟩
          intro a
          have hnst : ¬ ∃ m ∈ archive.files, decided_stale dir c₀ m := by
            intro hex
            exact absurd (hiff₁.mpr hex) (by simp)
          rw [hiff₂ a]
          constructor
          · rintro ⟨hin, hst⟩
            exact ⟨List.mem_cons_of_mem _ hin, hst⟩
          · rintro ⟨hin, hst⟩
            rcases List.mem_cons.mp hin with rfl | hin
            · exact absurd hst hnst
            · exact ⟨hin, hst⟩

/-! ## Attribution of trace events -/

/-- Download and post-download-verification events attributable to the
download of path `p`. -/
def is_download_ev_for (p : String) : Ev → Bool
  | .downloadAttempt q _ => q = p
  | .verifyOk q => q = p
  | .verifyFail q => q = p
  | _ => false

/-- Extraction events attributable to archive `a`. -/
def is_extraction_ev_for (a : String) : Ev → Bool
  | .skipMember b _ => b = a
  | .extractMember b _ => b = a
  | _ => false

/-- Whether the trace contains a download attempt of path `p`. -/
def has_download_of (p : String) (evs : List Ev) : Bool :=
  evs.any (fun e => match e with
    | Ev.downloadAttempt q _ => q = p
    | _ => false)

/-- A download-attempt event in the trace can only name one of the given
archives' artifact paths (any other event kind is unconstrained). -/
def download_attempt_within (archives : List UpdateArchive) : Ev → Bool
  | .downloadAttempt p _ => archives.any (fun a => a.file_data.path = p)
  | _ => true

theorem list_all_mono {α : Type _} (p q : α → Bool)
    (h : ∀ a, p a = true → q a = true) :
    ∀ l : List α, l.all p = true → l.all q = true := by
  intro l hp
  rw [List.all_eq_true] at hp ⊢
  exact fun a ha => h a (hp a ha)

/-- Every event the retry loop emits concerns the file being downloaded. -/
theorem downloadGo_events (file_data : UpdateFileData)
    (dl : String → Nat → AttemptOutcome) :
    ∀ (fuel : Nat) (hs : Cache) (attempts : Nat),
      ((downloadGo file_data dl hs attempts fuel).2.all
        (is_download_ev_for file_data.path)) = true
  | 0, hs, attempts => rfl
  | fuel + 1, hs, attempts => by
    unfold downloadGo
    cases hdl : dl file_data.path (attempts + 1) with
    | netErr =>
      simp only [hdl]
      simp [is_download_ev_for,
        downloadGo_events file_data dl fuel hs (attempts + 1)]
    | wrote hr =>
      simp only [hdl]
      cases hv : verify_downloaded_file hr file_data.blake3 with
      | error e =>
        simp only [hv]
        simp [is_download_ev_for]
      | ok b =>
        cases b with
        | true =>
          simp only [hv]
          simp [is_download_ev_for]
        | false =>
          simp only [hv]
          simp [is_download_ev_for,
            downloadGo_events file_data dl fuel hs (attempts + 1)]

theorem download_file_to_disk_events (file_data : UpdateFileData)
    (dl : String → Nat → AttemptOutcome) (hs : Cache) :
    ((download_file_to_disk file_data dl hs).2.all
      (is_download_ev_for file_data.path)) = true :=
  downloadGo_events file_data dl MAX_DOWNLOAD_ATTEMPTS hs 0

/-- Every event the standalone-file loop emits is a download event of one of
its files. -/
theorem downloadFilesLoop_events (or : Oracles) :
    ∀ (files : List UpdateFile) (hs : Cache),
      ((downloadFilesLoop or files hs).2.all (fun e =>
        files.any (fun f => is_download_ev_for f.file_data.path e))) = true
  | [], hs => rfl
  | f :: rest, hs => by
    unfold downloadFilesLoop
    by_cases hpd : or.parentDirOk f.file_data.path
    · rw [if_pos hpd]
      rcases hdl : download_file_to_disk f.file_data or.dl hs with ⟨r, evs⟩
      have hall : evs.all (is_download_ev_for f.file_data.path) = true := by
        have hev := download_file_to_disk_events f.file_data or.dl hs
        rw [hdl] at hev
        exact hev
      have hhead : evs.all (fun e =>
          (f :: rest).any (fun f' =>
            is_download_ev_for f'.file_data.path e)) = true := by
        refine list_all_mono _ _ (fun e he => ?_) evs hall
        simp [List.any_cons, he]
      cases r with
      | error e => exact hhead
      | ok hs' =>
        rcases hrec : downloadFilesLoop or rest hs' with ⟨r₂, evs₂⟩
        dsimp only
        rw [List.all_append, hhead]
        have htail : evs₂.all (fun e =>
            (f :: rest).any (fun f' =>
              is_download_ev_for f'.file_data.path e)) = true := by
          have h0 := downloadFilesLoop_events or rest hs'
          rw [hrec] at h0
          refine list_all_mono _ _ (fun e he => ?_) _ h0
          simp [List.any_cons, he]
        rw [hrec]
        simpa using htail
    · rw [if_neg hpd]
      rfl

/-- Every event the member loop emits is an extraction event of its
archive. -/
theorem extractLoop_events (or : Oracles) (aname : String) :
    ∀ members : List UpdateFileData,
      ((extractLoop or aname members).2.all (is_extraction_ev_for aname)) = true
  | [] => rfl
  | m :: rest => by
    have ih := extractLoop_events or aname rest
    rcases hrest : extractLoop or aname rest with ⟨r, evs⟩
    rw [hrest] at ih
    unfold extractLoop
    dsimp only
    by_cases hod : or.memberOnDisk m.path
    · rw [if_pos hod]
      cases hmh : or.memberHash m.path with
      | error e =>
        dsimp only [verify_downloaded_file]
        rfl
      | ok hstr =>
        dsimp only [verify_downloaded_file]
        by_cases heq : lowerStr hstr = lowerStr m.blake3
        · rw [decide_eq_true heq, hrest]
          dsimp only
          simp [is_extraction_ev_for, ih]
        · rw [decide_eq_false heq]
          by_cases hzip : or.memberInZip m.path
          · rw [if_pos hzip]
            by_cases hpd : or.parentDirOk m.path
            · rw [if_pos hpd, hrest]
              dsimp only
              simp [is_extraction_ev_for, ih]
            · rw [if_neg hpd]
              rfl
          · rw [if_neg hzip]
            rfl
    · rw [if_neg hod]
      by_cases hzip : or.memberInZip m.path
      · rw [if_pos hzip]
        by_cases hpd : or.parentDirOk m.path
        · rw [if_pos hpd, hrest]
          dsimp only
          simp [is_extraction_ev_for, ih]
        · rw [if_neg hpd]
          rfl
      · rw [if_neg hzip]
        rfl

theorem extract_archive_events (or : Oracles) (archive : UpdateArchive) :
    ((extract_archive or archive).2.all
      (is_extraction_ev_for archive.file_data.path)) = true := by
  unfold extract_archive
  by_cases hz : or.zipOpen archive.file_data.path
  · rw [if_pos hz]
    exact extractLoop_events or archive.file_data.path archive.files
  · rw [if_neg hz]
    rfl

/-- An extraction event is never a download attempt. -/
theorem extraction_ev_within (aname : String) (archives : List UpdateArchive)
    (e : Ev) (h : is_extraction_ev_for aname e = true) :
    download_attempt_within archives e = true := by
  cases e <;> simp_all [is_extraction_ev_for, download_attempt_within]

/-- Every download-attempt event the archive loop emits names one of its
archives' artifact paths. -/
theorem downloadArchivesLoop_download_events (or : Oracles) :
    ∀ (archives : List UpdateArchive) (hs : Cache),
      ((downloadArchivesLoop or archives hs).2.all
        (download_attempt_within archives)) = true
  | [], hs => rfl
  | archive :: rest, hs => by
    unfold downloadArchivesLoop
    by_cases hpd : or.parentDirOk archive.file_data.path
    · rw [if_pos hpd]
      have hxall : ∀ l : List Ev,
          l.all (is_extraction_ev_for archive.file_data.path) = true →
          l.all (download_attempt_within (archive :: rest)) = true :=
        fun l hl => list_all_mono _ _
          (extraction_ev_within archive.file_data.path (archive :: rest)) l hl
      have hdall : ∀ l : List Ev,
          l.all (is_download_ev_for archive.file_data.path) = true →
          l.all (download_attempt_within (archive :: rest)) = true := by
        refine fun l hl => list_all_mono _ _ (fun e he => ?_) l hl
        cases e <;>
          simp_all [is_download_ev_for, download_attempt_within, List.any_cons]
      have htall : ∀ (hs₂ : Cache),
          ((downloadArchivesLoop or rest hs₂).2.all
            (download_attempt_within (archive :: rest))) = true := by
        intro hs₂
        refine list_all_mono _ _ (fun e he => ?_) _
          (downloadArchivesLoop_download_events or rest hs₂)
        cases e <;>
          simp_all [download_attempt_within, List.any_cons]
      have hdel : download_attempt_within (archive :: rest)
          (Ev.deleteFile archive.file_data.path) = true := rfl
      rcases hx : extract_archive or archive with ⟨rx, xevs⟩
      have hxevs : xevs.all
          (download_attempt_within (archive :: rest)) = true := by
        have h0 := extract_archive_events or archive
        rw [hx] at h0
        exact hxall xevs h0
      rcases hdl : download_file_to_disk archive.file_data or.dl hs
        with ⟨r, evs⟩
      have hevs : evs.all
          (download_attempt_within (archive :: rest)) = true := by
        have h0 := download_file_to_disk_events archive.file_data or.dl hs
        rw [hdl] at h0
        exact hdall evs h0
      dsimp only
      by_cases hap : or.archivePresent archive.file_data.path
      · rw [if_pos hap]
        cases hv : verify_downloaded_file
            (or.archiveHash archive.file_data.path)
            archive.file_data.blake3 with
        | error e => rfl
        | ok verified =>
          cases verified with
          | true =>
            simp only [Bool.not_true]
            cases rx with
            | error e => exact hxevs
            | ok u =>
              cases u
              dsimp only
              by_cases hrm : or.removeOk archive.file_data.path
              · rw [if_pos hrm]
                rcases hrec : downloadArchivesLoop or rest hs with ⟨r₂, evs₂⟩
                have h2 := htall hs
                rw [hrec] at h2
                dsimp only
                simp [List.all_append, hxevs, hdel, h2]
              · rw [if_neg hrm]
                exact hxevs
          | false =>
            simp only [Bool.not_false]
            cases r with
            | error e => exact hevs
            | ok hs' =>
              dsimp only
              cases rx with
              | error e =>
                dsimp only
                simp [List.all_append, hevs, hxevs]
              | ok u =>
                cases u
                dsimp only
                by_cases hrm : or.removeOk archive.file_data.path
                · rw [if_pos hrm]
                  rcases hrec : downloadArchivesLoop or rest hs' with ⟨r₂, evs₂⟩
                  have h2 := htall hs'
                  rw [hrec] at h2
                  dsimp only
                  simp [List.all_append, hevs, hxevs, hdel, h2]
                · rw [if_neg hrm]
                  dsimp only
                  simp [List.all_append, hevs, hxevs]
      · rw [if_neg hap]
        cases r with
        | error e => exact hevs
        | ok hs' =>
          dsimp only
          cases rx with
          | error e =>
            dsimp only
            simp [List.all_append, hevs, hxevs]
          | ok u =>
            cases u
            dsimp only
            by_cases hrm : or.removeOk archive.file_data.path
            · rw [if_pos hrm]
              rcases hrec : downloadArchivesLoop or rest hs' with ⟨r₂, evs₂⟩
              have h2 := htall hs'
              rw [hrec] at h2
              dsimp only
              simp [List.all_append, hevs, hxevs, hdel, h2]
            · rw [if_neg hrm]
              dsimp only
              simp [List.all_append, hevs, hxevs]
    · rw [if_neg hpd]
      rfl

/-- A positive `has_download_of` yields a download-attempt event. -/
theorem download_attempt_mem (p : String) (evs : List Ev)
    (h : has_download_of p evs = true) :
    ∃ att, Ev.downloadAttempt p att ∈ evs := by
  unfold has_download_of at h
  rw [List.any_eq_true] at h
  obtain ⟨e, he, hm⟩ := h
  cases e with
  | downloadAttempt q att =>
    have hq : q = p := by simpa using hm
    exact ⟨att, hq ▸ he⟩
  | verifyOk q => simp at hm
  | verifyFail q => simp at hm
  | skipMember b mname => simp at hm
  | extractMember b mname => simp at hm
  | deleteFile q => simp at hm

/-! ## C4 — an archive is selected iff it has a stale member, and an
unselected archive is never downloaded -/

/-- C4: under a completed (panic-free) diff pass, an archive is put on the
download list iff at least one of its declared members is stale by the
standalone-file staleness rule (w.r.t. the cache as loaded — the
intermediate cache updates never change decisions); and for an archive not
on the list (whose artifact path is not shared with any selected file or
archive), no download attempt for its path ever occurs in the pass's
trace. -/
theorem archive_selected_iff_stale_member (update_data : UpdateData)
    (dir : Disk) (hashes : Cache) (selArch : List UpdateArchive)
    (selFiles : List UpdateFile) (hashes' : Cache) (n : Nat)
    (hverify : verify_files update_data dir hashes =
      some (selArch, selFiles, hashes', n))
    (a : UpdateArchive) :
    (a ∈ selArch ↔
      (a ∈ update_data.archives ∧ ∃ m ∈ a.files, decided_stale dir hashes m)) ∧
    (a ∉ selArch →
      (∀ f ∈ selFiles, f.file_data.path ≠ a.file_data.path) →
      (∀ a' ∈ selArch, a'.file_data.path ≠ a.file_data.path) →
      ∀ (or : Oracles) (res : Except String Cache) (evs : List Ev),
        download_files update_data dir or hashes = some (res, evs) →
        has_download_of a.file_data.path evs = false) := by
  have hver := hverify
  unfold verify_files at hver
  rcases hfl0 : verifyFilesLoop update_data.files dir hashes with - | ⟨selF, c₁, n₁⟩
  · rw [hfl0] at hver; cases hver
  rw [hfl0] at hver
  dsimp only at hver
  rcases hal0 : verifyArchivesLoop update_data update_data.archives dir c₁ with
    - | ⟨selA, c₂, n₂⟩
  · rw [hal0] at hver; cases hver
  rw [hal0] at hver
  dsimp only at hver
  obtain ⟨hsa, hsf, -, -⟩ : selA = selArch ∧ selF = selFiles ∧ c₂ = hashes' ∧
      n₁ + n₂ = n := by simpa using hver
  have hde₁ : DecisionsEq dir c₁ hashes :=
    verifyFilesLoop_decisions dir update_data.files hashes selF c₁ n₁ hfl0
  obtain ⟨hiff, -⟩ := archivesLoop_characterizes update_data dir hashes
    update_data.archives c₁ hde₁ selA c₂ n₂ hal0
  constructor
  · rw [← hsa]
    exact hiff a
  · intro hnot hf ha' or res evs hrun
    unfold download_files at hrun
    rw [hverify] at hrun
    dsimp only at hrun
    by_cases hemp : selArch.isEmpty && selFiles.isEmpty
    · rw [if_pos hemp] at hrun
      obtain ⟨-, hevs⟩ : Except.ok hashes' = res ∧ ([] : List Ev) = evs := by
        simpa using hrun
      rw [← hevs]
      rfl
    · rw [if_neg hemp] at hrun
      rcases hfl : downloadFilesLoop or selFiles hashes' with ⟨rf, fevs⟩
      rw [hfl] at hrun
      have hfev : fevs.all (fun e =>
          selFiles.any (fun f => is_download_ev_for f.file_data.path e)) = true := by
        have h0 := downloadFilesLoop_events or selFiles hashes'
        rw [hfl] at h0
        exact h0
      have hfev_no : ∀ att,
          Ev.downloadAttempt a.file_data.path att ∈ fevs → False := by
        intro att hmem
        have := (List.all_eq_true.mp hfev) _ hmem
        rw [List.any_eq_true] at this
        obtain ⟨f, hfmem, hev⟩ := this
        have : a.file_data.path = f.file_data.path := by
          simpa [is_download_ev_for] using hev
        exact hf f hfmem this.symm
      cases rf with
      | error e =>
        dsimp only at hrun
        obtain ⟨-, hevs⟩ : Except.error e = res ∧ fevs = evs := by
          simpa using hrun
        rw [← hevs]
        cases hhd : has_download_of a.file_data.path fevs with
        | false => rfl
        | true =>
          obtain ⟨att, hmem⟩ := download_attempt_mem _ _ hhd
          exact (hfev_no att hmem).elim
      | ok c₃ =>
        rcases hala : downloadArchivesLoop or selArch c₃ with ⟨ra, aevs⟩
        dsimp only at hrun
        rw [hala] at hrun
        dsimp only at hrun
        obtain ⟨-, hevs⟩ : ra = res ∧ fevs ++ aevs = evs := by simpa using hrun
        have haev : aevs.all (download_attempt_within selArch) = true := by
          have h0 := downloadArchivesLoop_download_events or selArch c₃
          rw [hala] at h0
          exact h0
        rw [← hevs]
        cases hhd : has_download_of a.file_data.path (fevs ++ aevs) with
        | false => rfl
        | true =>
          exfalso
          obtain ⟨att, hmem⟩ := download_attempt_mem _ _ hhd
          rcases List.mem_append.mp hmem with hmem | hmem
          · exact hfev_no att hmem
          · have := (List.all_eq_true.mp haev) _ hmem
            rw [show download_attempt_within selArch
                (Ev.downloadAttempt a.file_data.path att) =
                selArch.any (fun a' => a'.file_data.path = a.file_data.path)
              from rfl, List.any_eq_true] at this
            obtain ⟨a', ha'mem, heq⟩ := this
            exact ha' a' ha'mem (by simpa using heq)

/-! ## C7 — phase ordering of one sync pass -/

/-- The per-archive phase structure of the archive loop's trace: for each
archive in order, first download events for its artifact, then extraction
events of its members, then the deletion of the artifact. Events of distinct
archives are never interleaved. -/
inductive ArchivesTrace : List UpdateArchive → List Ev → Prop where
  | nil : ArchivesTrace [] []
  | cons (archive : UpdateArchive) (archives : List UpdateArchive)
      (devs xevs evs : List Ev) :
      devs.all (is_download_ev_for archive.file_data.path) = true →
      xevs.all (is_extraction_ev_for archive.file_data.path) = true →
      ArchivesTrace archives evs →
      ArchivesTrace (archive :: archives)
        (devs ++ xevs ++ Ev.deleteFile archive.file_data.path :: evs)

/-- The archive loop's trace on success has the per-archive phase
structure. -/
theorem downloadArchivesLoop_ok_trace (or : Oracles) :
    ∀ (archives : List UpdateArchive) (hs c' : Cache) (evs : List Ev),
      downloadArchivesLoop or archives hs = (.ok c', evs) →
      ArchivesTrace archives evs
  | [], hs, c', evs => by
    intro h
    unfold downloadArchivesLoop at h
    obtain ⟨-, hevs⟩ : hs = c' ∧ evs = [] := by simpa using h
    rw [hevs]
    exact .nil
  | archive :: rest, hs, c', evs => by
    intro h
    unfold downloadArchivesLoop at h
    by_cases hpd : or.parentDirOk archive.file_data.path
    · rw [if_pos hpd] at h
      try dsimp only at h
      by_cases hap : or.archivePresent archive.file_data.path
      · rw [if_pos hap] at h
        cases hv : verify_downloaded_file
            (or.archiveHash archive.file_data.path)
            archive.file_data.blake3 with
        | error e =>
          rw [hv] at h
          try dsimp only at h
          simp at h
        | ok verified =>
          rw [hv] at h
          try dsimp only at h
          cases verified with
          | true =>
            simp only [Bool.not_true] at h
            try dsimp only at h
            rcases hx : extract_archive or archive with ⟨rx, xevs⟩
            rw [hx] at h
            try dsimp only at h
            cases rx with
            | error e => simp at h
            | ok u =>
              cases u
              try dsimp only at h
              by_cases hrm : or.removeOk archive.file_data.path
              · rw [if_pos hrm] at h
                rcases hrec : downloadArchivesLoop or rest hs with ⟨r₂, evs₂⟩
                rw [hrec] at h
                try dsimp only at h
                obtain ⟨hr, hevs⟩ : r₂ = Except.ok c' ∧
                    xevs ++ Ev.deleteFile archive.file_data.path :: evs₂ = evs := by
                  simpa using h
                rw [← hevs]
                rw [hr] at hrec
                have hxall : xevs.all
                    (is_extraction_ev_for archive.file_data.path) = true := by
                  have h0 := extract_archive_events or archive
                  rw [hx] at h0
                  exact h0
                exact ArchivesTrace.cons archive rest [] xevs evs₂ rfl hxall
                  (downloadArchivesLoop_ok_trace or rest hs c' evs₂ hrec)
              · rw [if_neg hrm] at h
                simp at h
          | false =>
            simp only [Bool.not_false] at h
            try dsimp only at h
            rcases hdl : download_file_to_disk archive.file_data or.dl hs
              with ⟨r, devs⟩
            rw [hdl] at h
            try dsimp only at h
            cases r with
            | error e => simp at h
            | ok hs' =>
              try dsimp only at h
              rcases hx : extract_archive or archive with ⟨rx, xevs⟩
              rw [hx] at h
              try dsimp only at h
              cases rx with
              | error e => simp at h
              | ok u =>
                cases u
                try dsimp only at h
                by_cases hrm : or.removeOk archive.file_data.path
                · rw [if_pos hrm] at h
                  rcases hrec : downloadArchivesLoop or rest hs' with ⟨r₂, evs₂⟩
                  rw [hrec] at h
                  try dsimp only at h
                  obtain ⟨hr, hevs⟩ : r₂ = Except.ok c' ∧
                      devs ++ xevs ++ Ev.deleteFile archive.file_data.path :: evs₂
                        = evs := by
                    simpa using h
                  rw [← hevs]
                  rw [hr] at hrec
                  have hxall : xevs.all
                      (is_extraction_ev_for archive.file_data.path) = true := by
                    have h0 := extract_archive_events or archive
                    rw [hx] at h0
                    exact h0
                  have hdall : devs.all
                      (is_download_ev_for archive.file_data.path) = true := by
                    have h0 := download_file_to_disk_events archive.file_data
                      or.dl hs
                    rw [hdl] at h0
                    exact h0
                  exact ArchivesTrace.cons archive rest devs xevs evs₂ hdall
                    hxall (downloadArchivesLoop_ok_trace or rest hs' c' evs₂ hrec)
                · rw [if_neg hrm] at h
                  simp at h
      · rw [if_neg hap] at h
        try dsimp only at h
        rcases hdl : download_file_to_disk archive.file_data or.dl hs
          with ⟨r, devs⟩
        rw [hdl] at h
        try dsimp only at h
        cases r with
        | error e => simp at h
        | ok hs' =>
          try dsimp only at h
          rcases hx : extract_archive or archive with ⟨rx, xevs⟩
          rw [hx] at h
          try dsimp only at h
          cases rx with
          | error e => simp at h
          | ok u =>
            cases u
            try dsimp only at h
            by_cases hrm : or.removeOk archive.file_data.path
            · rw [if_pos hrm] at h
              rcases hrec : downloadArchivesLoop or rest hs' with ⟨r₂, evs₂⟩
              rw [hrec] at h
              try dsimp only at h
              obtain ⟨hr, hevs⟩ : r₂ = Except.ok c' ∧
                  devs ++ xevs ++ Ev.deleteFile archive.file_data.path :: evs₂
                    = evs := by
                simpa using h
              rw [← hevs]
              rw [hr] at hrec
              have hxall : xevs.all
                  (is_extraction_ev_for archive.file_data.path) = true := by
                have h0 := extract_archive_events or archive
                rw [hx] at h0
                exact h0
              have hdall : devs.all
                  (is_download_ev_for archive.file_data.path) = true := by
                have h0 := download_file_to_disk_events archive.file_data
                  or.dl hs
                rw [hdl] at h0
                exact h0
              exact ArchivesTrace.cons archive rest devs xevs evs₂ hdall
                hxall (downloadArchivesLoop_ok_trace or rest hs' c' evs₂ hrec)
            · rw [if_neg hrm] at h
              simp at h
    · rw [if_neg hpd] at h
      simp at h

/-- C7: in a successful sync pass, the trace splits into the standalone-file
phase followed by the archive phase: every event of the first part belongs
to the download/verification of a selected standalone file, and the second
part has the per-archive structure (download events of one archive, then
its extraction events, then its artifact deletion, archive after archive in
order) — so all standalone files are downloaded and verified before any
archive download begins, and each archive's extraction completes before the
next archive's download begins. -/
theorem sync_pass_ordering (update_data : UpdateData) (dir : Disk)
    (or : Oracles) (hashes : Cache) (selArch : List UpdateArchive)
    (selFiles : List UpdateFile) (hashes₁ : Cache) (n : Nat)
    (c₂ : Cache) (evs : List Ev)
    (hverify : verify_files update_data dir hashes =
      some (selArch, selFiles, hashes₁, n))
    (hrun : download_files update_data dir or hashes = some (.ok c₂, evs)) :
    ∃ fevs aevs, evs = fevs ++ aevs ∧
      fevs.all (fun e => selFiles.any (fun f =>
        is_download_ev_for f.file_data.path e)) = true ∧
      ArchivesTrace selArch aevs := by
  unfold download_files at hrun
  rw [hverify] at hrun
  dsimp only at hrun
  by_cases hemp : selArch.isEmpty && selFiles.isEmpty
  · rw [if_pos hemp] at hrun
    obtain ⟨-, hevs⟩ : hashes₁ = c₂ ∧ evs = [] := by simpa using hrun
    refine ⟨[], [], by rw [hevs]; rfl, rfl, ?_⟩
    have hsa : selArch = [] := by
      have := (Bool.and_eq_true _ _).mp hemp
      simpa using this.1
    rw [hsa]
    exact .nil
  · rw [if_neg hemp] at hrun
    rcases hfl : downloadFilesLoop or selFiles hashes₁ with ⟨rf, fevs⟩
    rw [hfl] at hrun
    cases rf with
    | error e =>
      dsimp only at hrun
      simp at hrun
    | ok c₃ =>
      dsimp only at hrun
      rcases hala : downloadArchivesLoop or selArch c₃ with ⟨ra, aevs⟩
      rw [hala] at hrun
      dsimp only at hrun
      obtain ⟨hra, hevs⟩ : ra = Except.ok c₂ ∧ fevs ++ aevs = evs := by
        simpa using hrun
      refine ⟨fevs, aevs, hevs.symm, ?_, ?_⟩
      · have h0 := downloadFilesLoop_events or selFiles hashes₁
        rw [hfl] at h0
        exact h0
      · rw [hra] at hala
        exact downloadArchivesLoop_ok_trace or selArch c₃ c₂ aevs hala

/-- Concrete archive for the C4 witness: one member `"m1"`, absent on
disk. -/
def c4Archive : UpdateArchive := ⟨⟨"cc", 4, "a.zip"⟩, "u", [⟨"aa", 1, "m1"⟩]⟩

/-- Concrete manifest for the C4 witness. -/
def c4Update : UpdateData := ⟨[c4Archive], []⟩

/-- Witness for C4 at a concrete input: the archive's only member is
missing, so the archive is selected. -/
theorem archive_selected_iff_stale_member_witness :
    (c4Archive ∈ [c4Archive] ↔
      (c4Archive ∈ c4Update.archives ∧
        ∃ m ∈ c4Archive.files, decided_stale [] [] m)) ∧
    (c4Archive ∉ [c4Archive] →
      (∀ f ∈ ([] : List UpdateFile),
        f.file_data.path ≠ c4Archive.file_data.path) →
      (∀ a' ∈ [c4Archive], a'.file_data.path ≠ c4Archive.file_data.path) →
      ∀ (or : Oracles) (res : Except String Cache) (evs : List Ev),
        download_files c4Update [] or [] = some (res, evs) →
        has_download_of c4Archive.file_data.path evs = false) :=
  archive_selected_iff_stale_member c4Update [] [] [c4Archive] [] [] 1
    (by rfl) c4Archive

/-- Concrete standalone file for the C7 witness. -/
def c7File : UpdateFile := ⟨⟨"aa", 1, "x"⟩, "http://f"⟩

/-- Concrete archive for the C7 witness. -/
def c7Archive : UpdateArchive :=
  ⟨⟨"cc", 2, "a.zip"⟩, "http://a", [⟨"bb", 1, "m1"⟩]⟩

/-- Concrete manifest for the C7 witness. -/
def c7Update : UpdateData := ⟨[c7Archive], [c7File]⟩

/-- Concrete oracle for the C7 witness: downloads always succeed with the
correct hash, the zip opens, the member is found and nothing pre-exists. -/
def c7Oracles : Oracles :=
  ⟨fun p _ => .wrote (.ok (if p = "x" then "aa" else "cc")),
   fun _ => true, fun _ => false, fun _ => .error "", fun _ => true,
   fun _ => false, fun _ => .error "", fun _ => true, fun _ => true⟩

/-- Witness for C7 at a concrete input: one stale standalone file and one
stale archive; the pass succeeds and its trace splits as claimed. -/
theorem sync_pass_ordering_witness :
    ∃ fevs aevs,
      ([Ev.downloadAttempt "x" 1, Ev.verifyOk "x",
        Ev.downloadAttempt "a.zip" 1, Ev.verifyOk "a.zip",
        Ev.extractMember "a.zip" "m1", Ev.deleteFile "a.zip"] : List Ev) =
        fevs ++ aevs ∧
      fevs.all (fun e => [c7File].any (fun f =>
        is_download_ev_for f.file_data.path e)) = true ∧
      ArchivesTrace [c7Archive] aevs :=
  sync_pass_ordering c7Update [] c7Oracles [] [c7Archive] [c7File] [] 2
    [("x", lowerStr "aa"), ("a.zip", lowerStr "cc")]
    [Ev.downloadAttempt "x" 1, Ev.verifyOk "x",
     Ev.downloadAttempt "a.zip" 1, Ev.verifyOk "a.zip",
     Ev.extractMember "a.zip" "m1", Ev.deleteFile "a.zip"]
    (by rfl) (by rfl)

end Launcher
